import Mathlib

/-!
Verification of the `electoral_search` match pipeline.

A shallow embedding, in Lean 4, of the core of the `ecr-ocr-cli` repository:
text normalization, record extraction (`text_processing.py`), the fuzzy
matcher built on RapidFuzz's token-set score, the result cache (`cache.py`)
and the parallel orchestrator (`parallel.py` / `ocr.py`).

Strings are modelled as `List Char` (Python `str` is a sequence of code
points).  Similarity scores, which RapidFuzz returns as floats, are modelled
exactly as rationals; all comparisons performed by the program on them are
between values whose exact rational forms are far from the decision
boundaries, so no floating-point rounding issue is glossed over.
-/

set_option maxHeartbeats 1000000

/-! ## Python string primitives -/

/-- Python's notion of a whitespace code point, as used by `str.strip()`,
`str.split()` and the (Unicode) regex class `\s`. -/
def isPySpace (c : Char) : Bool :=
  c == ' ' || c == '\t' || c == '\n' || c == '\r' ||
  c.toNat == 0x0B || c.toNat == 0x0C ||
  (0x1C ≤ c.toNat && c.toNat ≤ 0x1F) || c.toNat == 0x85 || c.toNat == 0xA0 ||
  c.toNat == 0x1680 || (0x2000 ≤ c.toNat && c.toNat ≤ 0x200A) ||
  c.toNat == 0x2028 || c.toNat == 0x2029 || c.toNat == 0x202F ||
  c.toNat == 0x205F || c.toNat == 0x3000

/-- Python `str.strip()`: remove leading and trailing whitespace. -/
def pyStrip (s : List Char) : List Char :=
  ((s.dropWhile isPySpace).reverse.dropWhile isPySpace).reverse

/-- Python `str.split()` with no argument: split on runs of whitespace,
discarding empty tokens. -/
def splitWs (s : List Char) : List (List Char) :=
  let r := s.foldr
    (fun c acc =>
      if isPySpace c then (([] : List Char), if acc.1 = [] then acc.2 else acc.1 :: acc.2)
      else (c :: acc.1, acc.2))
    ([], [])
  if r.1 = [] then r.2 else r.1 :: r.2

/-- Python `text.split("\n\n")`: split on each non-overlapping occurrence of
a blank-line separator, scanning left to right. -/
def splitBlank : List Char → List (List Char)
  | '\n' :: '\n' :: rest => [] :: splitBlank rest
  | c :: rest =>
    match splitBlank rest with
    | h :: t => (c :: h) :: t
    | [] => [[c]]
  | [] => [[]]

/-! ## `text_processing.py`: normalization

`normalize_bn` deletes every occurrence of the four characters in the
translation table `"ঃ।্ "` (visarga, danda, virama, space) and then strips
surrounding whitespace. -/

/-- The fixed strip-set of `normalize_bn`: `str.maketrans("", "", "ঃ।্ ")`. -/
def stripSet : List Char := ['ঃ', '।', '্', ' ']

/-- `normalize_bn(text)` from `text_processing.py`. -/
def normalize_bn (text : List Char) : List Char :=
  if text = [] then []
  else pyStrip (text.filter (fun c => !(decide (c ∈ stripSet))))

/-! ## `text_processing.py`: the two field regexes

`NAME_RE  = re.compile(r"নাম\s*[:：]\s*(.{1,200}?)(?:\n|$)", re.MULTILINE)`
`FATHER_RE = re.compile(r"(পিতার নাম|স্বামীর নাম)\s*[:：]\s*(.{1,200}?)(?:\n|$)", re.MULTILINE)`

`re.search` semantics are embedded directly: the leftmost starting position
wins; at a given position the greedy `\s*` backtracks from its longest
match, the capture `(.{1,200}?)` is lazy (`.` does not match a newline), and
`(?:\n|$)` accepts a newline or the end of the string (`$` under
`re.MULTILINE`). -/

def nameLabel : List Char := "নাম".toList

def fatherLabel1 : List Char := "পিতার নাম".toList

def fatherLabel2 : List Char := "স্বামীর নাম".toList

/-- Try the lazy capture `(.{1,200}?)(?:\n|$)` at the current position: it
succeeds exactly when the run of non-newline characters starting here has
length between 1 and 200, capturing that run. -/
def captureAt (u : List Char) : Option (List Char) :=
  let line := u.takeWhile (fun c => c != '\n')
  if 1 ≤ line.length ∧ line.length ≤ 200 then some line else none

/-- Backtracking for the greedy `\s*` that precedes the capture: try to
capture after consuming `j` whitespace characters, for `j` from the longest
whitespace run down to `0`. -/
def tryCapture : Nat → List Char → Option (List Char)
  | 0, t => captureAt t
  | j + 1, t =>
    match captureAt (t.drop (j + 1)) with
    | some v => some v
    | none => tryCapture j t

/-- Match `\s*(.{1,200}?)(?:\n|$)` against `t` (the text after the colon). -/
def matchValue (t : List Char) : Option (List Char) :=
  tryCapture (t.takeWhile isPySpace).length t

/-- Match `\s*[:：]\s*(.{1,200}?)(?:\n|$)` against `t` (the text right after
a field label), returning the captured value. -/
def matchTail (t : List Char) : Option (List Char) :=
  match t.dropWhile isPySpace with
  | c :: rest => if c = ':' ∨ c = '：' then matchValue rest else none
  | [] => none

/-- `NAME_RE.search`: scan for the leftmost position where the label `নাম`
followed by a colon tail matches, returning group 1. -/
def nameSearchAux : List Char → Option (List Char)
  | [] => none
  | c :: rest =>
    if nameLabel.isPrefixOf (c :: rest) then
      match matchTail ((c :: rest).drop nameLabel.length) with
      | some v => some v
      | none => nameSearchAux rest
    else nameSearchAux rest

/-- `FATHER_RE.search`: the guardian label is the alternation
`পিতার নাম | স্বামীর নাম` (the two alternatives start with distinct
characters, so at most one can match at a given position); returns
group 2 (the captured value). -/
def fatherSearchAux : List Char → Option (List Char)
  | [] => none
  | c :: rest =>
    if fatherLabel1.isPrefixOf (c :: rest) then
      match matchTail ((c :: rest).drop fatherLabel1.length) with
      | some v => some v
      | none => fatherSearchAux rest
    else if fatherLabel2.isPrefixOf (c :: rest) then
      match matchTail ((c :: rest).drop fatherLabel2.length) with
      | some v => some v
      | none => fatherSearchAux rest
    else fatherSearchAux rest

/-- `NAME_RE.search(block)`, as `Option` of the captured group 1. -/
def NAME_RE_search (s : List Char) : Option (List Char) := nameSearchAux s

/-- `FATHER_RE.search(block)`, as `Option` of the captured group 2. -/
def FATHER_RE_search (s : List Char) : Option (List Char) := fatherSearchAux s

/-! ## Data model (`types.py`) -/

/-- `BoundingBox` from `types.py`. -/
structure BoundingBox where
  left : Int
  top : Int
  width : Int
  height : Int
deriving DecidableEq

/-- `OCRWord` from `types.py`; confidence is an exact rational. -/
structure OCRWord where
  text : List Char
  confidence : ℚ
  bbox : BoundingBox
deriving DecidableEq

/-- `VoterInfo` from `types.py`; the `NotRequired` fields are `Option`s
defaulting to absent. -/
structure VoterInfo where
  name : List Char
  father : List Char
  name_bbox : Option BoundingBox := none
  father_bbox : Option BoundingBox := none
  confidence : Option ℚ := none
deriving DecidableEq

/-- `SearchResult` from `types.py`. -/
structure SearchResult where
  file : List Char
  page : Nat
  name : List Char
  father : List Char
  bbox : Option BoundingBox := none
  confidence : Option ℚ := none
deriving DecidableEq

/-! ## `extract_voter_blocks` -/

/-- The per-block body of `extract_voter_blocks`: a block yields a record
exactly when both regexes find a match, taking the leftmost captures,
stripped. -/
def extractBlock (block : List Char) : Option VoterInfo :=
  match NAME_RE_search block, FATHER_RE_search block with
  | some n, some f => some { name := pyStrip n, father := pyStrip f }
  | _, _ => none

/-- `extract_voter_blocks(text)` from `text_processing.py`: split on blank
lines, loop over the blocks appending a record when both patterns match.
(The `try/except` around the block body only guards regex engine errors,
which the embedding has none of.) -/
def extract_voter_blocks (text : List Char) : List VoterInfo :=
  (splitBlank text).foldl
    (fun voters block => voters ++ (extractBlock block).toList)
    []

/-! ## RapidFuzz scorers

`fuzz.ratio` is the normalized Indel similarity: for strings of lengths
`m`, `n` with longest common subsequence `ℓ`, the Indel distance is
`m + n - 2ℓ` and the score is `100 * (1 - dist/(m+n)) = 200ℓ/(m+n)`
(`100` when both strings are empty).  `fuzz.token_set_ratio` is the
classical token-set algorithm: tokenize both strings on whitespace, form
the sorted set intersection and the two sorted set differences, join each
with single spaces, and return the maximum of the three pairwise `ratio`
scores (`100` directly when the intersection is non-empty and one
difference is empty); both are modelled with exact rational scores. -/

/-- Length of a longest common subsequence, with explicit fuel so that the
recursion is structural (each recursive call shortens the combined length
by at least one, so `a.length + b.length` fuel always suffices). -/
def lcsLenF : Nat → List Char → List Char → Nat
  | 0, _, _ => 0
  | _ + 1, [], _ => 0
  | _ + 1, _ :: _, [] => 0
  | f + 1, a :: as, b :: bs =>
    if a = b then lcsLenF f as bs + 1
    else max (lcsLenF f (a :: as) bs) (lcsLenF f as (b :: bs))

/-- Length of a longest common subsequence. -/
def lcsLen (a b : List Char) : Nat := lcsLenF (a.length + b.length) a b

/-- `fuzz.ratio` as an exact rational in `[0, 100]`. -/
def ratioQ (a b : List Char) : ℚ :=
  if a.length + b.length = 0 then 100
  else mkRat (200 * (lcsLen a b : Int)) (a.length + b.length)

/-- `" ".join(l)`. -/
def joinSp (l : List (List Char)) : List Char := List.intercalate [' '] l

/-- Python `sorted` on a list of strings: lexicographic by code point
(`List Char` carries the lexicographic linear order). -/
def sortTok (l : List (List Char)) : List (List Char) :=
  List.insertionSort (· ≤ ·) l

/-- The token-set score over the two deduplicated token lists: sorted set
intersection and differences, space-joined, max of the three pairwise
`ratio` scores, with `100` returned directly when one token set contains
the other. -/
def tsrCore (tokensA tokensB : List (List Char)) : ℚ :=
  if tokensA = [] ∨ tokensB = [] then 0
  else if tokensA.filter (fun t => decide (t ∈ tokensB)) ≠ [] ∧
      (tokensA.filter (fun t => !(decide (t ∈ tokensB))) = [] ∨
       tokensB.filter (fun t => !(decide (t ∈ tokensA))) = []) then 100
  else
    max (max
      (ratioQ (joinSp (sortTok (tokensA.filter (fun t => decide (t ∈ tokensB)))))
        (pyStrip (joinSp (sortTok (tokensA.filter (fun t => decide (t ∈ tokensB)))) ++
          [' '] ++ joinSp (sortTok (tokensA.filter (fun t => !(decide (t ∈ tokensB))))))))
      (ratioQ (joinSp (sortTok (tokensA.filter (fun t => decide (t ∈ tokensB)))))
        (pyStrip (joinSp (sortTok (tokensA.filter (fun t => decide (t ∈ tokensB)))) ++
          [' '] ++ joinSp (sortTok (tokensB.filter (fun t => !(decide (t ∈ tokensA)))))))))
      (ratioQ
        (pyStrip (joinSp (sortTok (tokensA.filter (fun t => decide (t ∈ tokensB)))) ++
          [' '] ++ joinSp (sortTok (tokensA.filter (fun t => !(decide (t ∈ tokensB)))))))
        (pyStrip (joinSp (sortTok (tokensA.filter (fun t => decide (t ∈ tokensB)))) ++
          [' '] ++ joinSp (sortTok (tokensB.filter (fun t => !(decide (t ∈ tokensA))))))))

/-- `fuzz.token_set_ratio` as an exact rational: tokenize on whitespace,
deduplicate, score the token sets. -/
def token_set_ratioQ (s1 s2 : List Char) : ℚ :=
  tsrCore (splitWs s1).dedup (splitWs s2).dedup

/-- `fuzzy_match(a, b, threshold)` from `text_processing.py`: `False` when
either input is empty, otherwise the token-set score of the normalized
strings compared against the threshold.  (The `try/except` returns `False`
on a scorer exception; the embedded scorer is total.) -/
def fuzzy_match (a b : List Char) (threshold : Int) : Bool :=
  if a = [] ∨ b = [] then false
  else decide (token_set_ratioQ (normalize_bn a) (normalize_bn b) ≥ (threshold : ℚ))

/-! ## Box attachment (`_find_text_words`, `_get_combined_bbox`,
`extract_voter_blocks_with_boxes`) -/

/-- The inner loop of `_find_text_words` for one token: scan all OCR words
keeping the first word that strictly improves the best score, subject to
the fixed minimum score of 70. -/
def bestMatch (token : List Char) (ocr_words : List OCRWord) : Option OCRWord :=
  (ocr_words.foldl
    (fun acc w =>
      let score := ratioQ (normalize_bn token) (normalize_bn w.text)
      if score > acc.2 ∧ score ≥ 70 then (some w, score) else acc)
    ((none : Option OCRWord), (0 : ℚ))).1

/-- `_find_text_words(search_text, ocr_words)`: for each whitespace token
of the search text, find the best-scoring OCR word over all words; append
it to the matches unless it is already claimed. -/
def _find_text_words (search_text : List Char) (ocr_words : List OCRWord) :
    List OCRWord :=
  if search_text = [] ∨ ocr_words = [] then []
  else
    (splitWs search_text).foldl
      (fun matching token =>
        match bestMatch token ocr_words with
        | some w => if w ∈ matching then matching else matching ++ [w]
        | none => matching)
      []

/-- The spec's description of the same step (§4.3 of the spec, sources of
claim C9): for each token pick the word maximizing the score among the
words *not already claimed* within the same field, minimum score 70.
Used only to compare the specified behaviour against `_find_text_words`. -/
def _find_text_words_spec (search_text : List Char) (ocr_words : List OCRWord) :
    List OCRWord :=
  if search_text = [] ∨ ocr_words = [] then []
  else
    (splitWs search_text).foldl
      (fun matching token =>
        match bestMatch token (ocr_words.filter (fun w => !(decide (w ∈ matching)))) with
        | some w => matching ++ [w]
        | none => matching)
      []

/-- `_get_combined_bbox(ocr_words)`: bounding rectangle of all the words'
boxes (the call sites only use it on non-empty lists; on `[]` the code
returns the zero box). -/
def _get_combined_bbox (ocr_words : List OCRWord) : BoundingBox :=
  match ocr_words with
  | [] => { left := 0, top := 0, width := 0, height := 0 }
  | w :: ws =>
    let minLeft := ws.foldl (fun m x => min m x.bbox.left) w.bbox.left
    let minTop := ws.foldl (fun m x => min m x.bbox.top) w.bbox.top
    let maxRight := ws.foldl (fun m x => max m (x.bbox.left + x.bbox.width))
      (w.bbox.left + w.bbox.width)
    let maxBottom := ws.foldl (fun m x => max m (x.bbox.top + x.bbox.height))
      (w.bbox.top + w.bbox.height)
    { left := minLeft, top := minTop,
      width := maxRight - minLeft, height := maxBottom - minTop }

/-- Sum of the confidences of a list of OCR words. -/
def sumConf (ws : List OCRWord) : ℚ := (ws.map (·.confidence)).sum

/-- The per-record body of `extract_voter_blocks_with_boxes`: attach
word boxes to both fields; a field's bbox is present exactly when the
field claimed at least one word (`if name_bbox:` — a box dict is always
truthy), the confidence is the mean over all claimed words of both fields
and is present exactly when at least one word was claimed. -/
def attachBoxes (ocr_words : List OCRWord) (tv : VoterInfo) : VoterInfo :=
  let name_words := _find_text_words tv.name ocr_words
  let father_words := _find_text_words tv.father ocr_words
  let all_words := name_words ++ father_words
  { name := tv.name
    father := tv.father
    name_bbox := if name_words = [] then none else some (_get_combined_bbox name_words)
    father_bbox := if father_words = [] then none else some (_get_combined_bbox father_words)
    confidence :=
      if all_words = [] then none
      else some (sumConf all_words / (all_words.length : ℚ)) }

/-- `extract_voter_blocks_with_boxes(text, ocr_words)`: the text records of
`extract_voter_blocks` each augmented with boxes (the `except` fallback,
which would emit the bare record, is unreachable in the embedding). -/
def extract_voter_blocks_with_boxes (text : List Char) (ocr_words : List OCRWord) :
    List VoterInfo :=
  (extract_voter_blocks text).map (attachBoxes ocr_words)

/-! ## `cache.py`: SHA-256

`_compute_file_hash` and `_get_cache_key` hash with `hashlib.sha256`;
SHA-256 is embedded in full (FIPS 180-4) over byte lists, with 32-bit words
as `Nat` reduced mod `2^32`. -/

/-- Truncate to a 32-bit word. -/
def w32 (x : Nat) : Nat := x % 4294967296

/-- Right-rotation of a 32-bit word. -/
def rotr32 (x n : Nat) : Nat := w32 ((x >>> n) ||| (x <<< (32 - n)))

/-- Value of one lower-case hex digit. -/
def hexDigitVal (c : Char) : Nat :=
  if c.toNat ≤ 57 then c.toNat - 48 else c.toNat - 87

/-- Parse a hex string into 32-bit words, 8 digits per word. -/
def parseHexWords (s : List Char) : List Nat :=
  (s.foldl
    (fun (acc : List Nat × Nat × Nat) c =>
      if acc.2.2 = 7 then (acc.1 ++ [acc.2.1 * 16 + hexDigitVal c], 0, 0)
      else (acc.1, acc.2.1 * 16 + hexDigitVal c, acc.2.2 + 1))
    ([], 0, 0)).1

/-- The 64 SHA-256 round constants (the first 32 bits of the fractional
parts of the cube roots of the first 64 primes), as one hex string. -/
def shaK : List Nat := parseHexWords (String.toList (
    "428a2f9871374491b5c0fbcfe9b5dba53956c25b59f111f1923f82a4ab1c5ed5" ++
    "d807aa9812835b01243185be550c7dc372be5d7480deb1fe9bdc06a7c19bf174" ++
    "e49b69c1efbe47860fc19dc6240ca1cc2de92c6f4a7484aa5cb0a9dc76f988da" ++
    "983e5152a831c66db00327c8bf597fc7c6e00bf3d5a7914706ca635114292967" ++
    "27b70a852e1b21384d2c6dfc53380d13650a7354766a0abb81c2c92e92722c85" ++
    "a2bfe8a1a81a664bc24b8b70c76c51a3d192e819d6990624f40e3585106aa070" ++
    "19a4c1161e376c082748774c34b0bcb5391c0cb34ed8aa4a5b9cca4f682e6ff3" ++
    "748f82ee78a5636f84c878148cc7020890befffaa4506cebbef9a3f7c67178f2"))

/-- The SHA-256 initial hash state (first 32 bits of the fractional parts
of the square roots of the first 8 primes). -/
def shaH0 : List Nat := parseHexWords (String.toList
    "6a09e667bb67ae853c6ef372a54ff53a510e527f9b05688c1f83d9ab5be0cd19")

/-- 64-bit big-endian byte encoding (for the message-length trailer). -/
def be64 (n : Nat) : List Nat :=
  [(n >>> 56) % 256, (n >>> 48) % 256, (n >>> 40) % 256, (n >>> 32) % 256,
   (n >>> 24) % 256, (n >>> 16) % 256, (n >>> 8) % 256, n % 256]

/-- SHA-256 message padding: append `0x80`, zero bytes to 56 mod 64, then
the bit length, big-endian over 8 bytes. -/
def shaPad (msg : List Nat) : List Nat :=
  let L := msg.length
  let k := (120 - ((L + 1) % 64)) % 64
  msg ++ [0x80] ++ List.replicate k 0 ++ be64 (8 * L)

/-- Split a byte list into 64-byte blocks. -/
def chunks64 (l : List Nat) : List (List Nat) :=
  match l with
  | [] => []
  | a :: rest => ((a :: rest).take 64) :: chunks64 ((a :: rest).drop 64)
termination_by l.length
decreasing_by simp [List.length_drop]; omega

/-- Combine bytes into 32-bit big-endian words. -/
def toWords : List Nat → List Nat
  | b0 :: b1 :: b2 :: b3 :: rest =>
    ((((b0 <<< 8) ||| b1) <<< 8 ||| b2) <<< 8 ||| b3) :: toWords rest
  | _ => []

/-- Extend the 16 message words to the 64-entry message schedule. -/
def sched (w0 : Array Nat) : Array Nat :=
  (List.range 48).foldl
    (fun w j =>
      let i := j + 16
      let x15 := w.getD (i - 15) 0
      let x2 := w.getD (i - 2) 0
      let s0 := rotr32 x15 7 ^^^ rotr32 x15 18 ^^^ (x15 >>> 3)
      let s1 := rotr32 x2 17 ^^^ rotr32 x2 19 ^^^ (x2 >>> 10)
      w.push (w32 (w.getD (i - 16) 0 + s0 + w.getD (i - 7) 0 + s1)))
    w0

/-- One SHA-256 compression round over the 8-word state. -/
def shaRound (w : Array Nat) (st : Nat × Nat × Nat × Nat × Nat × Nat × Nat × Nat)
    (i : Nat) : Nat × Nat × Nat × Nat × Nat × Nat × Nat × Nat :=
  let (a, b, c, d, e, f, g, hh) := st
  let s1 := rotr32 e 6 ^^^ rotr32 e 11 ^^^ rotr32 e 25
  let ch := (e &&& f) ^^^ ((0xFFFFFFFF ^^^ e) &&& g)
  let t1 := w32 (hh + s1 + ch + shaK.getD i 0 + w.getD i 0)
  let s0 := rotr32 a 2 ^^^ rotr32 a 13 ^^^ rotr32 a 22
  let mj := (a &&& b) ^^^ (a &&& c) ^^^ (b &&& c)
  let t2 := w32 (s0 + mj)
  (w32 (t1 + t2), a, b, c, w32 (d + t1), e, f, g)

/-- Compress one 64-byte block into the running 8-word hash state. -/
def compressBlock (h : List Nat) (block : List Nat) : List Nat :=
  let w := sched (toWords block).toArray
  let st0 := (h.getD 0 0, h.getD 1 0, h.getD 2 0, h.getD 3 0,
              h.getD 4 0, h.getD 5 0, h.getD 6 0, h.getD 7 0)
  let st := (List.range 64).foldl (shaRound w) st0
  let (a, b, c, d, e, f, g, hh) := st
  List.zipWith (fun x y => w32 (x + y)) h [a, b, c, d, e, f, g, hh]

/-- Lower-case hex digit. -/
def hexChar (n : Nat) : Char :=
  if n < 10 then Char.ofNat (48 + n) else Char.ofNat (87 + n)

/-- A 32-bit word as 8 hex characters. -/
def wordHex (x : Nat) : List Char :=
  [hexChar ((x >>> 28) % 16), hexChar ((x >>> 24) % 16),
   hexChar ((x >>> 20) % 16), hexChar ((x >>> 16) % 16),
   hexChar ((x >>> 12) % 16), hexChar ((x >>> 8) % 16),
   hexChar ((x >>> 4) % 16), hexChar (x % 16)]

/-- `hashlib.sha256(bytes).hexdigest()`. -/
def sha256hex (msg : List Nat) : List Char :=
  ((chunks64 (shaPad msg)).foldl compressBlock shaH0).foldr
    (fun wd acc => wordHex wd ++ acc) []

/-- UTF-8 encoding of one code point (Python `str.encode()`). -/
def utf8Char (c : Char) : List Nat :=
  let n := c.toNat
  if n < 0x80 then [n]
  else if n < 0x800 then [0xC0 ||| (n >>> 6), 0x80 ||| (n &&& 0x3F)]
  else if n < 0x10000 then
    [0xE0 ||| (n >>> 12), 0x80 ||| ((n >>> 6) &&& 0x3F), 0x80 ||| (n &&& 0x3F)]
  else
    [0xF0 ||| (n >>> 18), 0x80 ||| ((n >>> 12) &&& 0x3F),
     0x80 ||| ((n >>> 6) &&& 0x3F), 0x80 ||| (n &&& 0x3F)]

/-- UTF-8 encoding of a string. -/
def utf8Bytes (s : List Char) : List Nat :=
  s.foldr (fun c acc => utf8Char c ++ acc) []

/-! ## `cache.py`: the `ResultCache`

The cache directory is modelled as an association list from file names to
files; a file carries its modification time and either parses to
`{version, results}` or is corrupt (any content whose `json.load` or field
access would raise).  Clock values and the TTL are integers in arbitrary
time units.  `get`'s failure handling (`except` around stat/load: delete
and miss) never lets an error escape, so the embedding is a total function
returning the result and the new directory state. -/

/-- `CACHE_VERSION = "1.0"`. -/
def CACHE_VERSION : List Char := "1.0".toList

/-- The parsed payload of a cache file (the fields `get` consumes). -/
structure CacheFileData where
  version : List Char
  results : List SearchResult
deriving DecidableEq

/-- A cache file either parses or is corrupt. -/
inductive CacheFileContent
  | corrupt
  | parsed (d : CacheFileData)
deriving DecidableEq

/-- A cache file on disk: modification time plus content. -/
structure CacheFile where
  mtime : Int
  content : CacheFileContent
deriving DecidableEq

/-- The cache directory: file name to file. -/
abbrev Store := List (List Char × CacheFile)

/-- Look a file up by name. -/
def fsLookup (k : List Char) : Store → Option CacheFile
  | [] => none
  | (k', f) :: rest => if k = k' then some f else fsLookup k rest

/-- `Path.unlink`: remove the file with the given name. -/
def fsErase (k : List Char) (s : Store) : Store :=
  s.filter (fun e => !(decide (e.1 = k)))

/-- `ResultCache._get_cache_key(pdf_path, search_names, threshold)`:
`sha256(file bytes) + "_" + sha256("|".join(sorted(names)))[:16] + "_" +
str(threshold)`. -/
def _get_cache_key (pdfBytes : List Nat) (search_names : List (List Char))
    (threshold : Int) : List Char :=
  let file_hash := sha256hex pdfBytes
  let names_hash :=
    (sha256hex (utf8Bytes (List.intercalate ['|'] (sortTok search_names)))).take 16
  file_hash ++ ['_'] ++ names_hash ++ ['_'] ++ (toString threshold).toList

/-- `ResultCache._get_cache_path`: the cache file name `{key}.json`. -/
def cachePath (pdfBytes : List Nat) (search_names : List (List Char))
    (threshold : Int) : List Char :=
  _get_cache_key pdfBytes search_names threshold ++ ".json".toList

/-- `ResultCache.get(pdf_path, search_names, threshold)`: returns the
cached results and the new directory state.  Miss (with deletion where the
code unlinks) on: no entry; entry older than the TTL; unparseable entry;
version mismatch. -/
def ResultCache.get (now ttl : Int) (store : Store) (pdfBytes : List Nat)
    (search_names : List (List Char)) (threshold : Int) :
    Option (List SearchResult) × Store :=
  match fsLookup (cachePath pdfBytes search_names threshold) store with
  | none => (none, store)
  | some f =>
    if now - f.mtime > ttl then
      (none, fsErase (cachePath pdfBytes search_names threshold) store)
    else
      match f.content with
      | .corrupt => (none, fsErase (cachePath pdfBytes search_names threshold) store)
      | .parsed d =>
        if d.version ≠ CACHE_VERSION then
          (none, fsErase (cachePath pdfBytes search_names threshold) store)
        else (some d.results, store)

/-- `ResultCache.set(pdf_path, search_names, threshold, results)`:
unconditional overwrite with the current version tag and a fresh
timestamp.  (Write failures are logged and swallowed in the code; the
embedding models the successful write.) -/
def ResultCache.set (now : Int) (store : Store) (pdfBytes : List Nat)
    (search_names : List (List Char)) (threshold : Int)
    (results : List SearchResult) : Store :=
  (cachePath pdfBytes search_names threshold,
    { mtime := now, content := .parsed { version := CACHE_VERSION, results := results } })
    :: fsErase (cachePath pdfBytes search_names threshold) store

/-! ## `parallel.py` / `ocr.py`: statistics and the orchestrator

`process_pdf`'s interaction with its `ProcessingStats` argument
(`ocr.py` lines 241–255) is modelled as a state transition driven by the
document's fate; the externally-determined outcome of validating,
rasterizing and recognizing one document is abstracted into that fate.
`process_pdfs_parallel` submits every document to a `ProcessPoolExecutor`:
each worker receives a *pickled copy* of the stats object, so worker-side
mutations never reach the coordinator; only the returned results or the
re-raised exception cross the process boundary.  The fold below is over
the completion order of the futures. -/

/-- `ProcessingStats` from `config.py`. -/
structure ProcessingStats where
  files_processed : Nat := 0
  files_failed : Nat := 0
  pages_processed : Nat := 0
  matches_found : Nat := 0
  errors : List (List Char) := []
deriving DecidableEq

/-- Abstracted fate of processing one document inside `process_pdf`:
it either completes (returning its matches), raises a
`ValueError`/`RuntimeError` (validation or conversion failure — re-raised
after recording), or hits an unexpected exception (recorded, partial
results returned). -/
inductive DocFate
  | ok (results : List SearchResult)
  | fatal (msg : List Char)
  | unexpected (msg : List Char) (res : List SearchResult)
deriving DecidableEq

/-- The statistics/outcome behaviour of `process_pdf(pdf_path, …, stats)`
(`ocr.py`): success increments `files_processed`; a
`ValueError`/`RuntimeError` increments `files_failed`, appends the error
and re-raises; an unexpected exception increments `files_failed`, appends
the error and returns the partial results. -/
def process_pdf (pdfName : List Char) (fate : DocFate) (stats : ProcessingStats) :
    Except (List Char) (List SearchResult) × ProcessingStats :=
  match fate with
  | .ok results =>
    (.ok results, { stats with files_processed := stats.files_processed + 1 })
  | .fatal msg =>
    (.error msg,
     { stats with
        files_failed := stats.files_failed + 1,
        errors := stats.errors ++ [pdfName ++ ": ".toList ++ msg] })
  | .unexpected msg res =>
    (.ok res,
     { stats with
        files_failed := stats.files_failed + 1,
        errors := stats.errors ++ [pdfName ++ ": ".toList ++ msg] })

/-- `process_pdfs_parallel(pdf_files, process_func, max_workers, stats)`
(`parallel.py`): fold over the futures in completion order.  Each worker
calls `process_pdf` on its own pickled copy of `stats` (taken at
submission time, before any completion), and that copy is discarded; the
coordinator extends the aggregate result list on success and increments
`files_failed` / appends the error on a raised exception. -/
def process_pdfs_parallel (docs : List (List Char × DocFate))
    (stats : ProcessingStats) : List SearchResult × ProcessingStats :=
  docs.foldl
    (fun acc doc =>
      match (process_pdf doc.1 doc.2 stats).1 with
      | .ok results => (acc.1 ++ results, acc.2)
      | .error e =>
        (acc.1,
         { acc.2 with
            files_failed := acc.2.files_failed + 1,
            errors := acc.2.errors ++ [doc.1 ++ ": ".toList ++ e] }))
    ([], stats)

/-! ## Helper lemmas -/

/-- `pyStrip` only removes characters: the result is a sublist. -/
theorem pyStrip_sublist (s : List Char) : List.Sublist (pyStrip s) s := by
  have h1 : List.Sublist (s.dropWhile isPySpace) s := List.dropWhile_sublist _
  have h2 : List.Sublist ((s.dropWhile isPySpace).reverse.dropWhile isPySpace)
      (s.dropWhile isPySpace).reverse := List.dropWhile_sublist _
  have h3 := h2.reverse
  rw [List.reverse_reverse] at h3
  exact h3.trans h1

/-- A loop that appends the optional output of each step is `filterMap`. -/
theorem foldl_append_eq_filterMap {α β : Type} (f : α → Option β) :
    ∀ (l : List α) (acc : List β),
      l.foldl (fun vs x => vs ++ (f x).toList) acc = acc ++ l.filterMap f := by
  intro l
  induction l with
  | nil => intro acc; simp
  | cons a l ih =>
    intro acc
    simp only [List.foldl_cons]
    cases h : f a <;> simp [List.filterMap_cons, h, ih]

/-! ## Claim theorems: normalization and matching -/

/-- C7: `normalize_bn` is total and deterministic (it is a Lean function),
maps the empty string to the empty string, never lengthens its input, and
its output contains no character of the fixed strip-set. -/
theorem normalize_bn_total_strip :
    normalize_bn [] = [] ∧
    ∀ s : List Char, (normalize_bn s).length ≤ s.length ∧
      ∀ c ∈ normalize_bn s, c ∉ stripSet := by
  constructor
  · decide
  intro s
  by_cases hs : s = []
  · subst hs; exact ⟨by decide, by decide⟩
  · have hsub : List.Sublist (normalize_bn s)
        (s.filter (fun c => !(decide (c ∈ stripSet)))) := by
      simp only [normalize_bn, if_neg hs]
      exact pyStrip_sublist _
    constructor
    · exact hsub.length_le.trans (List.filter_sublist s).length_le
    · intro c hc
      have : c ∈ s.filter (fun c => !(decide (c ∈ stripSet))) := hsub.subset hc
      have := (List.mem_filter.mp this).2
      simpa using this

/-- C7 witness: a concrete instantiation of the strip-set property. -/
theorem normalize_bn_total_strip_witness : 'ম' ∉ stripSet :=
  (normalize_bn_total_strip.2 ("ম ".toList)).2 'ম' (by decide)

/-- C8: `fuzzy_match` returns `False` whenever either argument is the
empty string, for every threshold; the embedded scorer is total, matching
the `try/except` that converts any scorer failure into `False`. -/
theorem fuzzy_match_empty_false :
    ∀ (a b : List Char) (t : Int),
      fuzzy_match a [] t = false ∧ fuzzy_match [] b t = false := by
  intro a b t
  constructor <;> simp [fuzzy_match]

/-- C10: `extract_voter_blocks` emits at most one record per
blank-line-separated block — precisely, it is the `filterMap` over the
blocks of the single-record extractor built from the leftmost match of
each regex — so its length never exceeds the number of blocks. -/
theorem extract_voter_blocks_one_per_block :
    ∀ text : List Char,
      extract_voter_blocks text = (splitBlank text).filterMap extractBlock ∧
      (extract_voter_blocks text).length ≤ (splitBlank text).length := by
  intro text
  have h : extract_voter_blocks text = (splitBlank text).filterMap extractBlock := by
    have h0 := foldl_append_eq_filterMap (α := List Char) (β := VoterInfo)
      extractBlock (splitBlank text) []
    unfold extract_voter_blocks
    rw [List.nil_append] at h0
    exact h0
  exact ⟨h, by rw [h]; exact List.length_filterMap_le _ _⟩

/-! ## Claim C1: which blocks yield records -/

/-- If the name label followed by a matching colon tail occurs anywhere in
the string, `NAME_RE.search` succeeds. -/
theorem nameSearchAux_isSome_append :
    ∀ (u w : List Char), (matchTail w).isSome →
      (nameSearchAux (u ++ (nameLabel ++ w))).isSome := by
  intro u
  induction u with
  | nil =>
    intro w hw
    rw [List.nil_append,
      show nameLabel ++ w = 'ন' :: ('া' :: 'ম' :: w) from rfl, nameSearchAux]
    have hpre : nameLabel.isPrefixOf ('ন' :: ('া' :: 'ম' :: w)) = true := by
      simp [nameLabel, List.isPrefixOf]
    rw [if_pos hpre]
    have hdrop : ('ন' :: ('া' :: 'ম' :: w)).drop nameLabel.length = w := rfl
    rw [hdrop]
    obtain ⟨v, hv⟩ := Option.isSome_iff_exists.mp hw
    rw [hv]
    rfl
  | cons x u ih =>
    intro w hw
    rw [List.cons_append, nameSearchAux]
    by_cases hpre : nameLabel.isPrefixOf (x :: (u ++ (nameLabel ++ w))) = true
    · rw [if_pos hpre]
      cases hm : matchTail ((x :: (u ++ (nameLabel ++ w))).drop nameLabel.length)
      · exact ih w hw
      · rfl
    · rw [if_neg hpre]
      exact ih w hw

/-- If `FATHER_RE.search` succeeds, the string decomposes as some prefix,
one of the two guardian labels, and a tail on which the colon-tail pattern
matches. -/
theorem fatherSearchAux_some_decomp :
    ∀ s : List Char, (fatherSearchAux s).isSome →
      ∃ u w, (s = u ++ (fatherLabel1 ++ w) ∨ s = u ++ (fatherLabel2 ++ w)) ∧
        (matchTail w).isSome := by
  intro s
  induction s with
  | nil => intro h; simp [fatherSearchAux] at h
  | cons c rest ih =>
    intro h
    rw [fatherSearchAux] at h
    by_cases h1 : fatherLabel1.isPrefixOf (c :: rest) = true
    · rw [if_pos h1] at h
      obtain ⟨w, hw⟩ := List.isPrefixOf_iff_prefix.mp h1
      cases hm : matchTail ((c :: rest).drop fatherLabel1.length) with
      | some v =>
        refine ⟨[], w, Or.inl (by rw [List.nil_append, hw]), ?_⟩
        have : (c :: rest).drop fatherLabel1.length = w := by
          rw [← hw, List.drop_left]
        rw [this] at hm
        simp [hm]
      | none =>
        rw [hm] at h
        obtain ⟨u, w', hcase, hw'⟩ := ih h
        refine ⟨c :: u, w', ?_, hw'⟩
        cases hcase with
        | inl hc => exact Or.inl (by rw [List.cons_append, ← hc])
        | inr hc => exact Or.inr (by rw [List.cons_append, ← hc])
    · rw [if_neg h1] at h
      by_cases h2 : fatherLabel2.isPrefixOf (c :: rest) = true
      · rw [if_pos h2] at h
        obtain ⟨w, hw⟩ := List.isPrefixOf_iff_prefix.mp h2
        cases hm : matchTail ((c :: rest).drop fatherLabel2.length) with
        | some v =>
          refine ⟨[], w, Or.inr (by rw [List.nil_append, hw]), ?_⟩
          have : (c :: rest).drop fatherLabel2.length = w := by
            rw [← hw, List.drop_left]
          rw [this] at hm
          simp [hm]
        | none =>
          rw [hm] at h
          obtain ⟨u, w', hcase, hw'⟩ := ih h
          refine ⟨c :: u, w', ?_, hw'⟩
          cases hcase with
          | inl hc => exact Or.inl (by rw [List.cons_append, ← hc])
          | inr hc => exact Or.inr (by rw [List.cons_append, ← hc])
      · rw [if_neg h2] at h
        obtain ⟨u, w', hcase, hw'⟩ := ih h
        refine ⟨c :: u, w', ?_, hw'⟩
        cases hcase with
        | inl hc => exact Or.inl (by rw [List.cons_append, ← hc])
        | inr hc => exact Or.inr (by rw [List.cons_append, ← hc])

/-- C1 counterexample: a block whose only labeled line is the guardian
field `পিতার নাম : করিম` — it contains no standalone name field, so the
claim predicts zero records — yields one full record: `NAME_RE` matches
the substring `নাম` embedded in the guardian label itself. -/
theorem extract_guardian_only_block :
    extract_voter_blocks ("পিতার নাম : করিম".toList) =
      [{ name := "করিম".toList, father := "করিম".toList }] ∧
    extract_voter_blocks ("নাম : রহিম".toList) = [] := by
  constructor <;> decide

/-- C1 amended: a block yields a record exactly when both regexes match,
and whenever the guardian pattern matches, the name pattern matches too
(both guardian labels end in the name label `নাম`); consequently a block
with only a name field yields zero records, but a block with only a
guardian field yields one. -/
theorem father_match_implies_name_match :
    ∀ block : List Char,
      (FATHER_RE_search block).isSome → (NAME_RE_search block).isSome := by
  intro b h
  obtain ⟨u, w, hcase, hw⟩ := fatherSearchAux_some_decomp b h
  cases hcase with
  | inl hc =>
    have : b = (u ++ "পিতার ".toList) ++ (nameLabel ++ w) := by
      rw [hc, List.append_assoc]
      rfl
    rw [NAME_RE_search, this]
    exact nameSearchAux_isSome_append _ w hw
  | inr hc =>
    have : b = (u ++ "স্বামীর ".toList) ++ (nameLabel ++ w) := by
      rw [hc, List.append_assoc]
      rfl
    rw [NAME_RE_search, this]
    exact nameSearchAux_isSome_append _ w hw

/-- C1 amended, witness: concrete application on a guardian-only block. -/
theorem father_match_implies_name_match_witness :
    (NAME_RE_search ("পিতার নাম : ক".toList)).isSome :=
  father_match_implies_name_match ("পিতার নাম : ক".toList) (by decide)

/-! ## Claim C2: token-order sensitivity of the matcher -/

/-- `sortTok` depends only on the multiset of tokens. -/
theorem sortTok_perm {l l' : List (List Char)} (h : l.Perm l') :
    sortTok l = sortTok l' := by
  unfold sortTok
  exact List.eq_of_perm_of_sorted
    ((List.perm_insertionSort _ l).trans (h.trans (List.perm_insertionSort _ l').symm))
    (List.sorted_insertionSort _ l) (List.sorted_insertionSort _ l')

/-- The token-set score depends on its first token list only up to
permutation. -/
theorem tsrCore_perm_left (A A' B : List (List Char)) (hA : A'.Perm A) :
    tsrCore A' B = tsrCore A B := by
  have hnil : A' = [] ↔ A = [] := by
    rw [← List.length_eq_zero, ← List.length_eq_zero, hA.length_eq]
  have hsect : (A'.filter (fun t => decide (t ∈ B))).Perm
      (A.filter (fun t => decide (t ∈ B))) := hA.filter _
  have hdAB : (A'.filter (fun t => !(decide (t ∈ B)))).Perm
      (A.filter (fun t => !(decide (t ∈ B)))) := hA.filter _
  have hdBA : B.filter (fun t => !(decide (t ∈ A'))) =
      B.filter (fun t => !(decide (t ∈ A))) := by
    apply List.filter_congr
    intro x _
    simp [hA.mem_iff]
  have hsectnil : (A'.filter (fun t => decide (t ∈ B)) ≠ []) ↔
      (A.filter (fun t => decide (t ∈ B)) ≠ []) := by
    rw [ne_eq, ne_eq, ← List.length_eq_zero, ← List.length_eq_zero, hsect.length_eq]
  have hdABnil : (A'.filter (fun t => !(decide (t ∈ B))) = []) ↔
      (A.filter (fun t => !(decide (t ∈ B))) = []) := by
    rw [← List.length_eq_zero, ← List.length_eq_zero, hdAB.length_eq]
  unfold tsrCore
  refine if_congr (or_congr hnil Iff.rfl) rfl ?_
  refine if_congr (and_congr hsectnil (or_congr hdABnil (by rw [hdBA]))) rfl ?_
  rw [sortTok_perm hsect, sortTok_perm hdAB, hdBA]

/-- C2 counterexample: `"cd ab"` is a token permutation of `"ab cd"`, yet
against `"abcd"` at threshold 80 the first matches and the second does
not — `normalize_bn` deletes the spaces before scoring, so the
whitespace-token structure of the inputs is not what the token-set
algorithm sees. -/
theorem fuzzy_match_token_order_cex :
    (splitWs ("cd ab".toList)).Perm (splitWs ("ab cd".toList)) ∧
    fuzzy_match ("ab cd".toList) ("abcd".toList) 80 = true ∧
    fuzzy_match ("cd ab".toList) ("abcd".toList) 80 = false := by
  refine ⟨by decide, by decide, by decide⟩

/-- C2 amended: the score is insensitive to the order (indeed to any
permutation) of the whitespace-delimited tokens of the *normalized*
strings; since normalization deletes literal spaces, permuting the tokens
of the raw input can change the normalized string itself and hence the
result. -/
theorem fuzzy_match_token_set_inv :
    ∀ (a a' b : List Char) (t : Int),
      a ≠ [] → a' ≠ [] →
      (splitWs (normalize_bn a')).Perm (splitWs (normalize_bn a)) →
      fuzzy_match a' b t = fuzzy_match a b t := by
  intro a a' b t ha ha' hperm
  unfold fuzzy_match
  by_cases hb : b = []
  · simp [hb]
  · rw [if_neg (by simp [ha', hb]), if_neg (by simp [ha, hb])]
    have h : token_set_ratioQ (normalize_bn a') (normalize_bn b) =
        token_set_ratioQ (normalize_bn a) (normalize_bn b) := by
      unfold token_set_ratioQ
      exact tsrCore_perm_left _ _ _ hperm.dedup
    rw [h]

/-- C2 amended, witness: `"b\na"` and `"a\nb"` normalize to strings with
the same token set (newlines survive normalization), so they match
identically. -/
theorem fuzzy_match_token_set_inv_witness :
    fuzzy_match ("b\na".toList) ("ab".toList) 50 =
      fuzzy_match ("a\nb".toList) ("ab".toList) 50 :=
  fuzzy_match_token_set_inv ("a\nb".toList) ("b\na".toList) ("ab".toList) 50
    (by decide) (by decide) (by decide)

/-! ## Claim C9: box attachment -/

/-- A word selected by the best-match scan comes from the scanned list
(or was already selected in the accumulator). -/
theorem bestMatch_fold_mem (token : List Char) :
    ∀ (l : List OCRWord) (acc : Option OCRWord × ℚ) (w : OCRWord),
      ((l.foldl
        (fun acc w =>
          let score := ratioQ (normalize_bn token) (normalize_bn w.text)
          if score > acc.2 ∧ score ≥ 70 then (some w, score) else acc)
        acc).1 = some w) → acc.1 = some w ∨ w ∈ l := by
  intro l
  induction l with
  | nil => intro acc w h; exact Or.inl h
  | cons a l ih =>
    intro acc w h
    rw [List.foldl_cons] at h
    rcases ih _ w h with h' | h'
    · by_cases hc : (ratioQ (normalize_bn token) (normalize_bn a.text) > acc.2 ∧
          ratioQ (normalize_bn token) (normalize_bn a.text) ≥ 70)
      · rw [if_pos hc] at h'
        simp at h'
        exact Or.inr (by simp [h'])
      · rw [if_neg hc] at h'
        exact Or.inl h'
    · exact Or.inr (List.mem_cons_of_mem _ h')

/-- `bestMatch` only returns elements of the scanned word list. -/
theorem bestMatch_mem (token : List Char) (ws : List OCRWord) (w : OCRWord)
    (h : bestMatch token ws = some w) : w ∈ ws := by
  unfold bestMatch at h
  rcases bestMatch_fold_mem token ws (none, 0) w h with h' | h'
  · simp at h'
  · exact h'

/-- The matched-word accumulator of `_find_text_words` stays duplicate-free
and within the OCR word list. -/
theorem find_fold_nodup_mem (ws : List OCRWord) :
    ∀ (toks : List (List Char)) (acc : List OCRWord),
      acc.Nodup → (∀ x ∈ acc, x ∈ ws) →
      (toks.foldl
        (fun matching token =>
          match bestMatch token ws with
          | some w => if w ∈ matching then matching else matching ++ [w]
          | none => matching)
        acc).Nodup ∧
      ∀ x ∈ (toks.foldl
        (fun matching token =>
          match bestMatch token ws with
          | some w => if w ∈ matching then matching else matching ++ [w]
          | none => matching)
        acc), x ∈ ws := by
  intro toks
  induction toks with
  | nil => intro acc h1 h2; exact ⟨h1, h2⟩
  | cons t toks ih =>
    intro acc h1 h2
    rw [List.foldl_cons]
    cases hb : bestMatch t ws with
    | none => exact ih acc h1 h2
    | some w =>
      dsimp only
      by_cases hw : w ∈ acc
      · rw [if_pos hw]
        exact ih acc h1 h2
      · rw [if_neg hw]
        refine ih (acc ++ [w]) ?_ ?_
        · simp [List.nodup_append, h1, hw]
        · intro x hx
          rcases List.mem_append.mp hx with hx | hx
          · exact h2 x hx
          · simp at hx
            exact hx ▸ bestMatch_mem t ws w hb

/-- Words for the C9 counterexample. -/
def cexW1 : OCRWord :=
  { text := "ab".toList, confidence := 90, bbox := ⟨0, 0, 1, 1⟩ }

/-- Second word for the C9 counterexample: scores 80 (≥ the minimum 70)
against the token `ab`. -/
def cexW2 : OCRWord :=
  { text := "ab2".toList, confidence := 80, bbox := ⟨5, 0, 1, 1⟩ }

/-- C9 counterexample: on the field text `ab ab`, the second token's best
word over *all* OCR words is `cexW1`, which is already claimed, so the
code attributes nothing to it; the claim's rule (argmax over the words not
already claimed, minimum 70) would attribute `cexW2`, which clears the
minimum score. -/
theorem find_text_words_reuse_cex :
    _find_text_words ("ab ab".toList) [cexW1, cexW2] = [cexW1] ∧
    _find_text_words_spec ("ab ab".toList) [cexW1, cexW2] = [cexW1, cexW2] ∧
    ratioQ (normalize_bn ("ab".toList)) (normalize_bn cexW2.text) ≥ 70 := by
  refine ⟨by decide, by decide, by decide⟩

/-- C9 amended: each token's candidate is the best-scoring word over *all*
OCR words (minimum score 70, first maximum wins); a token whose candidate
is already claimed contributes nothing (the next-best word is not
considered).  The attached words are duplicate-free and drawn from the OCR
list; the record is always produced: the box-level extractor emits exactly
one record per text record, with the same name and father, the field bbox
omitted exactly when that field claimed no word, and the confidence
omitted exactly when neither field claimed any word. -/
theorem extract_with_boxes_structure :
    ∀ (text : List Char) (ws : List OCRWord),
      (extract_voter_blocks_with_boxes text ws).length =
        (extract_voter_blocks text).length ∧
      (∀ s, (_find_text_words s ws).Nodup ∧ ∀ w ∈ _find_text_words s ws, w ∈ ws) ∧
      ∀ v ∈ extract_voter_blocks_with_boxes text ws,
        ∃ tv ∈ extract_voter_blocks text,
          v.name = tv.name ∧ v.father = tv.father ∧
          (v.name_bbox = none ↔ _find_text_words tv.name ws = []) ∧
          (v.father_bbox = none ↔ _find_text_words tv.father ws = []) ∧
          (v.confidence = none ↔
            (_find_text_words tv.name ws = [] ∧ _find_text_words tv.father ws = [])) := by
  intro text ws
  refine ⟨by simp [extract_voter_blocks_with_boxes], ?_, ?_⟩
  · intro s
    unfold _find_text_words
    by_cases h : s = [] ∨ ws = []
    · rw [if_pos h]; exact ⟨List.nodup_nil, by simp⟩
    · rw [if_neg h]
      exact find_fold_nodup_mem ws (splitWs s) [] List.nodup_nil (by simp)
  · intro v hv
    obtain ⟨tv, htv, hmap⟩ := List.mem_map.mp hv
    refine ⟨tv, htv, ?_⟩
    subst hmap
    unfold attachBoxes
    refine ⟨rfl, rfl, ?_, ?_, ?_⟩
    · by_cases h : _find_text_words tv.name ws = [] <;> simp [h]
    · by_cases h : _find_text_words tv.father ws = [] <;> simp [h]
    · by_cases h : _find_text_words tv.name ws ++ _find_text_words tv.father ws = []
      · simp [h, List.append_eq_nil.mp h]
      · simp only [if_neg h]
        simp [List.append_eq_nil] at h ⊢
        intro h1 h2
        exact h h1 h2

/-- C9 amended, witness: concrete instantiation on a one-record page with
no OCR words, where all optional fields are omitted. -/
theorem extract_with_boxes_structure_witness :
    ∃ tv ∈ extract_voter_blocks ("নাম : ক\nপিতার নাম : খ".toList),
      ({ name := "ক".toList, father := "খ".toList } : VoterInfo).name = tv.name ∧
      ({ name := "ক".toList, father := "খ".toList } : VoterInfo).father = tv.father ∧
      (({ name := "ক".toList, father := "খ".toList } : VoterInfo).name_bbox = none ↔
        _find_text_words tv.name [] = []) ∧
      (({ name := "ক".toList, father := "খ".toList } : VoterInfo).father_bbox = none ↔
        _find_text_words tv.father [] = []) ∧
      (({ name := "ক".toList, father := "খ".toList } : VoterInfo).confidence = none ↔
        (_find_text_words tv.name [] = [] ∧ _find_text_words tv.father [] = [])) :=
  (extract_with_boxes_structure ("নাম : ক\nপিতার নাম : খ".toList) []).2.2
    { name := "ক".toList, father := "খ".toList } (by decide)

/-! ## Claim C3: orchestrator statistics -/

/-- A sample result for the C3 run. -/
def c3res : SearchResult :=
  { file := "a.pdf".toList, page := 1, name := "ক".toList, father := "খ".toList }

/-- C3 evaluation at the failing input: two documents, the first succeeds
with one match, the second raises `ValueError("Corrupted PDF file: b.pdf")`.
`process_pdfs_parallel` reports `files_failed = 1`, records the error,
aggregates the successful document's results — but `files_processed` is
`0`, not `N - 1 = 1`: the increment inside `process_pdf` happens on the
worker's pickled copy of the stats and never reaches the coordinator, and
the coordinator itself never increments `files_processed`. -/
theorem process_pdfs_parallel_lost_count :
    process_pdfs_parallel
        [("a.pdf".toList, .ok [c3res]),
         ("b.pdf".toList, .fatal ("Corrupted PDF file: b.pdf".toList))]
        {} =
      ([c3res],
       { files_processed := 0, files_failed := 1,
         errors := ["b.pdf: Corrupted PDF file: b.pdf".toList] }) ∧
    (0 : Nat) ≠ 2 - 1 ∧
    (process_pdf ("b.pdf".toList)
        (.fatal ("Corrupted PDF file: b.pdf".toList)) {}).2.files_failed = 1 := by
  refine ⟨by decide, by decide, by decide⟩

/-! ## Claims C4–C6: the result cache -/

/-- Looking up the file just written. -/
theorem fsLookup_cons_self (k : List Char) (f : CacheFile) (s : Store) :
    fsLookup k ((k, f) :: s) = some f := by
  unfold fsLookup
  rw [if_pos rfl]

/-- `get` right after `set` under the same key parameters returns exactly
the stored list, provided the entry has not yet expired. -/
theorem get_after_set (now now' ttl : Int) (store : Store) (bytes : List Nat)
    (names : List (List Char)) (t : Int) (R : List SearchResult)
    (httl : now' - now ≤ ttl) :
    (ResultCache.get now' ttl (ResultCache.set now store bytes names t R)
      bytes names t).1 = some R := by
  unfold ResultCache.get ResultCache.set
  rw [fsLookup_cons_self]
  dsimp only
  rw [if_neg (by omega : ¬ now' - now > ttl)]
  simp [CACHE_VERSION]

/-- C5: cache round-trip — `set(doc, names, t, R)` then `get(doc, names,
t)` before the TTL expires returns exactly `R` (the list itself, order
preserved). -/
theorem cache_round_trip :
    ∀ (store : Store) (bytes : List Nat) (names : List (List Char)) (t : Int)
      (R : List SearchResult) (now now' ttl : Int),
      now' - now ≤ ttl →
      (ResultCache.get now' ttl (ResultCache.set now store bytes names t R)
        bytes names t).1 = some R := by
  intro store bytes names t R now now' ttl h
  exact get_after_set now now' ttl store bytes names t R h

/-- C5 witness: a concrete round-trip. -/
theorem cache_round_trip_witness :
    (ResultCache.get 5 30 (ResultCache.set 0 [] [37] [['x']] 82 [c3res])
      [37] [['x']] 82).1 = some [c3res] :=
  cache_round_trip [] [37] [['x']] 82 [c3res] 0 5 30 (by decide)

/-- C4: the cache key is a pure function of the document bytes, the
*set* of names and the threshold: permuting the name list or renaming a
byte-identical file leaves the key unchanged, and a `set` under one name
order is hit by a `get` under another. -/
theorem cache_key_pure :
    ∀ (readBytes : List Char → List Nat) (p q : List Char)
      (names names' : List (List Char)) (t : Int),
      names.Perm names' → readBytes p = readBytes q →
      _get_cache_key (readBytes p) names t = _get_cache_key (readBytes q) names' t ∧
      ∀ (store : Store) (now now' ttl : Int) (R : List SearchResult),
        now' - now ≤ ttl →
        (ResultCache.get now' ttl
          (ResultCache.set now store (readBytes p) names t R)
          (readBytes q) names' t).1 = some R := by
  intro readBytes p q names names' t hperm hbytes
  have hkey : _get_cache_key (readBytes p) names t
      = _get_cache_key (readBytes q) names' t := by
    unfold _get_cache_key
    rw [hbytes, sortTok_perm hperm]
  refine ⟨hkey, ?_⟩
  intro store now now' ttl R httl
  have hpath : cachePath (readBytes q) names' t = cachePath (readBytes p) names t := by
    unfold cachePath
    rw [hkey]
  unfold ResultCache.get ResultCache.set
  rw [hpath, fsLookup_cons_self]
  dsimp only
  rw [if_neg (by omega : ¬ now' - now > ttl)]
  simp [CACHE_VERSION]

/-- C4 witness: byte-identical files under two different paths, with the
name list given in two different orders. -/
theorem cache_key_pure_witness :
    _get_cache_key ((fun _ => [1, 2, 3]) ("a.pdf".toList)) [['x'], ['y']] 82 =
      _get_cache_key ((fun _ => [1, 2, 3]) ("b.pdf".toList)) [['y'], ['x']] 82 ∧
    (ResultCache.get 1 30
      (ResultCache.set 0 [] ((fun _ => [1, 2, 3]) ("a.pdf".toList)) [['x'], ['y']] 82 [c3res])
      ((fun _ => [1, 2, 3]) ("b.pdf".toList)) [['y'], ['x']] 82).1 = some [c3res] := by
  have h := cache_key_pure (fun _ => [1, 2, 3]) ("a.pdf".toList) ("b.pdf".toList)
    [['x'], ['y']] [['y'], ['x']] 82 (by decide) rfl
  exact ⟨h.1, h.2 [] 0 1 30 [c3res] (by decide)⟩

/-- C6: every miss case of `get` — no entry, expired entry, corrupt entry,
version mismatch — returns nothing; in the latter three the offending
entry is deleted from the cache directory.  The embedded `get` is a total
function: no failure propagates. -/
theorem cache_get_miss_cases :
    ∀ (now ttl : Int) (store : Store) (bytes : List Nat)
      (names : List (List Char)) (t : Int),
      (fsLookup (cachePath bytes names t) store = none →
        ResultCache.get now ttl store bytes names t = (none, store)) ∧
      ∀ f, fsLookup (cachePath bytes names t) store = some f →
        (now - f.mtime > ttl →
          ResultCache.get now ttl store bytes names t =
            (none, fsErase (cachePath bytes names t) store)) ∧
        (¬ now - f.mtime > ttl → f.content = .corrupt →
          ResultCache.get now ttl store bytes names t =
            (none, fsErase (cachePath bytes names t) store)) ∧
        (¬ now - f.mtime > ttl → ∀ d, f.content = .parsed d →
          d.version ≠ CACHE_VERSION →
          ResultCache.get now ttl store bytes names t =
            (none, fsErase (cachePath bytes names t) store)) := by
  intro now ttl store bytes names t
  constructor
  · intro hnone
    unfold ResultCache.get
    rw [hnone]
  · intro f hsome
    refine ⟨?_, ?_, ?_⟩
    · intro hexp
      unfold ResultCache.get
      rw [hsome]
      simp only [if_pos hexp]
    · intro hexp hcor
      unfold ResultCache.get
      rw [hsome]
      simp only [if_neg hexp, hcor]
    · intro hexp d hd hv
      unfold ResultCache.get
      rw [hsome]
      simp only [if_neg hexp, hd, if_pos hv]

/-- C6 witness: a corrupt entry under the queried key is reported as a
miss and removed. -/
theorem cache_get_miss_cases_witness :
    ResultCache.get 0 30
        [(cachePath [9] [['x']] 82, { mtime := 0, content := .corrupt })]
        [9] [['x']] 82 =
      (none,
        fsErase (cachePath [9] [['x']] 82)
          [(cachePath [9] [['x']] 82, { mtime := 0, content := .corrupt })]) :=
  (((cache_get_miss_cases 0 30
      [(cachePath [9] [['x']] 82, { mtime := 0, content := .corrupt })]
      [9] [['x']] 82).2
    { mtime := 0, content := .corrupt }
    (fsLookup_cons_self _ _ _)).2.1 (by decide) rfl)
